import Mathlib

/-!
# Verification of the elevator-saga dispatch controller

Shallow embedding of `src/src/elevator.ts`: the `game` object's mutable
fields become a `GameState` record, each event handler becomes a state
transformer that also returns the list of commands it issues on host
capability objects, and the in-place JavaScript `Array.prototype.sort`
with the comparator `(aPrime > bPrime) ? 1 : -1` is modelled by a stable
sort under the induced ordering `abs(cf - a) ≤ abs(cf - b)`.
-/

namespace ElevatorSaga

/-- Movement direction reported by the host (`type Direction` in the source). -/
inductive Direction
  | up
  | down
  | stopped
deriving DecidableEq

/-- The slice of a host elevator capability object that the controller
reads: `currentFloor()` is the only query any handler performs. -/
structure ElevatorState where
  currentFloor : Int
deriving DecidableEq

/-- A command invoked on a host elevator capability object. The `Elevator`
type in the source exposes all of these mutating entry points; tracking
them all lets us state which ones the controller actually uses.
`goToFloor` carries its floor as an `Option Int` because `onElevatorIdle`
destructures the head of a possibly empty array
(`const [nextFloor] = ...`), which in JavaScript yields `undefined`, and
its optional second argument `goDirectly` as an `Option Bool` (`none`
when the call site passes a single argument). -/
inductive Command
  | goToFloor (elevator : Nat) (floor : Option Int) (goDirectly : Option Bool)
  | stop (elevator : Nat)
  | checkDestinationQueue (elevator : Nat)
  | setGoingUpIndicator (elevator : Nat) (value : Bool)
  | setGoingDownIndicator (elevator : Nat) (value : Bool)
  | setDestinationQueue (elevator : Nat) (queue : List Int)
deriving DecidableEq

/-- The mutable fields of the `game` object (`MyGame` in the source).
Floors are represented by their floor numbers, elevators by the state the
controller reads from them. `floorRequests` is the pending-request
container: a plain array (`number[]`), not a set. -/
structure GameState where
  goingUp : Int
  goingDown : Int
  elevators : List ElevatorState
  floors : List Int
  floorRequests : List Int
deriving DecidableEq

/-- The ordering induced by the comparator in `onElevatorIdle`: the
comparator returns `(aPrime > bPrime) ? 1 : -1`, so it reports `a` before
`b` exactly when `abs(currentFloor - a) ≤ abs(currentFloor - b)`. -/
def requestOrder (currentFloor : Int) (a b : Int) : Prop :=
  (currentFloor - a).natAbs ≤ (currentFloor - b).natAbs

instance (cf : Int) : DecidableRel (requestOrder cf) :=
  fun _ _ => Nat.decLe _ _

instance (cf : Int) : IsTotal Int (requestOrder cf) :=
  ⟨fun _ _ => Nat.le_total _ _⟩

instance (cf : Int) : IsTrans Int (requestOrder cf) :=
  ⟨fun _ _ _ => Nat.le_trans⟩

/-- `onElevatorIdle(index)`: returns early when the cached elevator list is
empty; otherwise sorts `floorRequests` in place by distance from the
elevator's current floor, destructures the head (`undefined`, i.e. `none`,
when the array is empty) and calls `goToFloor` with it. The chosen floor
is never removed from `floorRequests`. Indexing a missing elevator throws
a `TypeError`, modelled as `none`. -/
def onElevatorIdle (s : GameState) (index : Nat) : Option (GameState × List Command) :=
  if s.elevators.length = 0 then
    some (s, [])
  else
    match s.elevators.get? index with
    | none => none
    | some e =>
      let sorted := s.floorRequests.insertionSort (requestOrder e.currentFloor)
      some ({ s with floorRequests := sorted },
        [Command.goToFloor index sorted.head? none])

/-- `onElevatorFloorButtonPressed(index, floorNumber)`: commands the
elevator to the pressed floor, then evaluates
`this.floorRequests.filter((e) => e !== floorNumber)` without reassigning
`this.floorRequests`, so the filtered result is discarded and the pending
list is unchanged. Indexing a missing elevator throws, modelled as
`none`. -/
def onElevatorFloorButtonPressed (s : GameState) (index : Nat) (floorNumber : Int) :
    Option (GameState × List Command) :=
  match s.elevators.get? index with
  | none => none
  | some _ =>
    let _discarded := s.floorRequests.filter (fun e => e != floorNumber)
    some (s, [Command.goToFloor index (some floorNumber) none])

/-- `onElevatorPassingFloor`: empty body in the source. -/
def onElevatorPassingFloor (s : GameState) (_index : Nat) (_floorNumber : Int)
    (_direction : Direction) : GameState × List Command :=
  (s, [])

/-- `onElevatorStoppedAtFloor`: empty body in the source. -/
def onElevatorStoppedAtFloor (s : GameState) (_index : Nat) (_floorNumber : Int) :
    GameState × List Command :=
  (s, [])

/-- `onFloorRequest(floorNumber)`: `this.floorRequests.push(floorNumber)`,
an unconditional append with no membership check. -/
def onFloorRequest (s : GameState) (floorNumber : Int) : GameState × List Command :=
  ({ s with floorRequests := s.floorRequests ++ [floorNumber] }, [])

/-- `update(dt, elevators, floors)`: replaces the cached collections and
performs no other work; it issues no commands. (`init` only registers the
event callbacks via `on(...)` and likewise issues no capability commands;
its effect is captured by the event dispatch below.) -/
def update (s : GameState) (_dt : Int) (elevators : List ElevatorState)
    (floors : List Int) : GameState × List Command :=
  ({ s with elevators := elevators, floors := floors }, [])

/-- A host event delivered to one of the controller's registered
callbacks. -/
inductive Event
  | floorRequest (floor : Int)
  | elevatorIdle (index : Nat)
  | elevatorFloorButtonPressed (index : Nat) (floor : Int)
  | elevatorPassingFloor (index : Nat) (floor : Int) (direction : Direction)
  | elevatorStoppedAtFloor (index : Nat) (floor : Int)
deriving DecidableEq

/-- Dispatch one event to its handler; `none` models a thrown exception. -/
def step (s : GameState) : Event → Option (GameState × List Command)
  | .floorRequest f => some (onFloorRequest s f)
  | .elevatorIdle i => onElevatorIdle s i
  | .elevatorFloorButtonPressed i f => onElevatorFloorButtonPressed s i f
  | .elevatorPassingFloor i f d => some (onElevatorPassingFloor s i f d)
  | .elevatorStoppedAtFloor i f => some (onElevatorStoppedAtFloor s i f)

/-- Run a sequence of events, accumulating the commands issued. -/
def run (s : GameState) : List Event → Option (GameState × List Command)
  | [] => some (s, [])
  | e :: es =>
    match step s e with
    | none => none
    | some (s1, cs) =>
      match run s1 es with
      | none => none
      | some (s2, cs2) => some (s2, cs ++ cs2)

/-- One elevator at floor 0, one pending request for floor 3. -/
def exState1 : GameState :=
  { goingUp := 0, goingDown := 0, elevators := [⟨0⟩], floors := [0, 1, 2, 3],
    floorRequests := [3] }

/-- One elevator at floor 0, no pending requests. -/
def emptyState : GameState :=
  { goingUp := 0, goingDown := 0, elevators := [⟨0⟩], floors := [0, 1, 2, 3],
    floorRequests := [] }

/-- **C1.** Claimed: on an idle event with a non-empty pending set, the
handler removes the nearest pending floor before issuing `goToFloor`, so
that floor is no longer pending afterwards. The code never removes
anything from `floorRequests` in `onElevatorIdle`: with one elevator at
floor 0 and pending floor 3, the handler issues `goToFloor(3)` yet
returns a state in which 3 is still pending (the state is unchanged). -/
theorem C1_idle_never_removes :
    onElevatorIdle exState1 0 = some (exState1, [Command.goToFloor 0 (some 3) none]) ∧
    3 ∈ exState1.floorRequests := by
  decide

/-- **C2.** Claimed: insertion is idempotent and a floor already pending is
not duplicated. The code is an unconditional `push`: calling the
floor-call handler twice with floor 3 from an empty pending list yields
`[3, 3]` (floor 3 counted twice), not the single-call result `[3]`. -/
theorem C2_add_not_idempotent :
    ((onFloorRequest (onFloorRequest emptyState 3).1 3).1).floorRequests = [3, 3] ∧
    ((onFloorRequest (onFloorRequest emptyState 3).1 3).1).floorRequests.count 3 = 2 ∧
    ((onFloorRequest emptyState 3).1).floorRequests = [3] := by
  decide

/-- Two elevators at floor 0, one pending request for floor 3. -/
def twoElevState : GameState :=
  { goingUp := 0, goingDown := 0, elevators := [⟨0⟩, ⟨0⟩], floors := [0, 1, 2, 3],
    floorRequests := [3] }

/-- **C3.** Claimed: no floor is selected as nearest and commanded to two
different elevators without an intervening re-add. Because the idle
handler never removes the claimed floor, two consecutive idle events (no
floor-request event in between) command elevator 0 and elevator 1 to the
same pending floor 3. -/
theorem C3_double_assignment :
    run twoElevState [Event.elevatorIdle 0, Event.elevatorIdle 1] =
      some (twoElevState,
        [Command.goToFloor 0 (some 3) none, Command.goToFloor 1 (some 3) none]) := by
  decide

/-- One elevator at floor 0, one pending request for floor 4. -/
def pending4State : GameState :=
  { goingUp := 0, goingDown := 0, elevators := [⟨0⟩], floors := [0, 1, 2, 3, 4],
    floorRequests := [4] }

/-- **C4.** Claimed: after the in-cabin button handler runs with a pending
floor, a `goToFloor` command has been issued and the floor is no longer
pending. The command is issued, but the handler's
`floorRequests.filter(...)` result is discarded (never reassigned), so
with pending floor 4 the post-state still contains 4: the returned state
is exactly the input state. -/
theorem C4_remove_does_not_persist :
    onElevatorFloorButtonPressed pending4State 0 4 =
      some (pending4State, [Command.goToFloor 0 (some 4) none]) ∧
    4 ∈ pending4State.floorRequests := by
  decide

/-- **C5.** Claimed: an idle event with an empty pending set issues no
command. With one elevator and an empty `floorRequests`, the code
destructures the head of the empty sorted array (`undefined`) and still
calls `goToFloor(undefined)`: a command is issued, carrying no floor. -/
theorem C5_empty_idle_issues_command :
    onElevatorIdle emptyState 0 = some (emptyState, [Command.goToFloor 0 none none]) := by
  decide

/-- **C6.** Nearest correctness: whenever the indexed elevator exists and
the pending list is non-empty, the idle handler commands a floor drawn
from the pending list whose distance to the elevator's current floor is
minimal over all pending floors. -/
theorem C6_nearest_minimizes (s : GameState) (index : Nat) (e : ElevatorState)
    (hidx : s.elevators.get? index = some e) (hne : s.floorRequests ≠ []) :
    ∃ g s', onElevatorIdle s index = some (s', [Command.goToFloor index (some g) none]) ∧
      g ∈ s.floorRequests ∧
      ∀ x ∈ s.floorRequests,
        (e.currentFloor - g).natAbs ≤ (e.currentFloor - x).natAbs := by
  have hlen : ¬ s.elevators.length = 0 := by
    intro h0
    rw [List.length_eq_zero] at h0
    rw [h0] at hidx
    simp at hidx
  obtain ⟨g, rest, hsorted⟩ :
      ∃ g rest, s.floorRequests.insertionSort (requestOrder e.currentFloor) = g :: rest := by
    cases hs : s.floorRequests.insertionSort (requestOrder e.currentFloor) with
    | nil =>
      exfalso
      apply hne
      have hperm := List.perm_insertionSort (requestOrder e.currentFloor) s.floorRequests
      rw [hs] at hperm
      exact hperm.symm.eq_nil
    | cons g rest => exact ⟨g, rest, rfl⟩
  refine ⟨g, { s with floorRequests := g :: rest }, ?_, ?_, ?_⟩
  · unfold onElevatorIdle
    rw [if_neg hlen, hidx]
    simp only [hsorted, List.head?]
  · have hg : g ∈ g :: rest := List.mem_cons_self g rest
    rw [← hsorted] at hg
    exact (List.mem_insertionSort (requestOrder e.currentFloor)).mp hg
  · intro x hx
    have hxs : x ∈ g :: rest := by
      rw [← hsorted]
      exact (List.mem_insertionSort (requestOrder e.currentFloor)).mpr hx
    have hsort : List.Sorted (requestOrder e.currentFloor) (g :: rest) := by
      rw [← hsorted]
      exact List.sorted_insertionSort (requestOrder e.currentFloor) s.floorRequests
    rcases List.mem_cons.mp hxs with hxg | hxr
    · subst hxg
      exact Nat.le_refl _
    · exact (List.sorted_cons.mp hsort).1 x hxr

/-- One elevator at floor 6, pending floors 2, 5 and 9. -/
def nearestState : GameState :=
  { goingUp := 0, goingDown := 0, elevators := [⟨6⟩],
    floors := [0, 1, 2, 3, 4, 5, 6, 7, 8, 9], floorRequests := [2, 5, 9] }

/-- **C6 witness.** With pending floors `{2, 5, 9}` and the elevator at
floor 6, the handler selects floor 5, and the general minimality theorem
applies at this input. -/
theorem C6_witness :
    onElevatorIdle nearestState 0 =
      some ({ nearestState with floorRequests := [5, 9, 2] },
        [Command.goToFloor 0 (some 5) none]) ∧
    (∃ g s', onElevatorIdle nearestState 0 =
        some (s', [Command.goToFloor 0 (some g) none]) ∧
      g ∈ nearestState.floorRequests ∧
      ∀ x ∈ nearestState.floorRequests,
        ((6 : Int) - g).natAbs ≤ ((6 : Int) - x).natAbs) :=
  ⟨by decide, C6_nearest_minimizes nearestState 0 ⟨6⟩ (by decide) (by decide)⟩

/-- One elevator at floor 5, pending floors stored as `[3, 7]`. -/
def tieStateA : GameState :=
  { goingUp := 0, goingDown := 0, elevators := [⟨5⟩], floors := [0, 1, 2, 3, 4, 5, 6, 7],
    floorRequests := [3, 7] }

/-- One elevator at floor 5, the same pending floors stored as `[7, 3]`. -/
def tieStateB : GameState :=
  { goingUp := 0, goingDown := 0, elevators := [⟨5⟩], floors := [0, 1, 2, 3, 4, 5, 6, 7],
    floorRequests := [7, 3] }

/-- **C7.** Claimed: with two pending floors at equal distance, nearest
selection over identical set contents always returns the same fixed
candidate. The comparator never reports equality (`(aPrime > bPrime) ? 1
: -1`), so equal-distance candidates keep their array order: with the
same set contents `{3, 7}` and the elevator at floor 5, the array `[3,
7]` yields floor 3 while the array `[7, 3]` yields floor 7 — the choice
depends on the underlying storage order, not on any fixed rule over the
set contents. -/
theorem C7_tiebreak_depends_on_order :
    onElevatorIdle tieStateA 0 = some (tieStateA, [Command.goToFloor 0 (some 3) none]) ∧
    onElevatorIdle tieStateB 0 = some (tieStateB, [Command.goToFloor 0 (some 7) none]) ∧
    (tieStateA.floorRequests : Multiset Int) = (tieStateB.floorRequests : Multiset Int) := by
  refine ⟨by decide, by decide, ?_⟩
  exact Multiset.coe_eq_coe.mpr (by decide)

/-- **C8.** The pending request list never shrinks: for every event
handler, the multiset of floors in `floorRequests` before the handler is
contained in the multiset after it — `onFloorRequest` appends,
`onElevatorIdle` only reorders in place, and the floor-button handler's
filter result is discarded. -/
theorem C8_requests_never_shrink (s : GameState) (e : Event) (s' : GameState)
    (cs : List Command) (h : step s e = some (s', cs)) :
    (s.floorRequests : Multiset Int) ≤ (s'.floorRequests : Multiset Int) := by
  cases e with
  | floorRequest f =>
    simp only [step, onFloorRequest, Option.some.injEq, Prod.mk.injEq] at h
    obtain ⟨h1, -⟩ := h
    subst h1
    rw [← Multiset.coe_add]
    exact Multiset.le_add_right _ _
  | elevatorIdle i =>
    simp only [step, onElevatorIdle] at h
    split at h
    · simp only [Option.some.injEq, Prod.mk.injEq] at h
      obtain ⟨h1, -⟩ := h
      subst h1
      exact le_refl _
    · split at h
      · exact Option.noConfusion h
      · next e' heq =>
        simp only [Option.some.injEq, Prod.mk.injEq] at h
        obtain ⟨h1, -⟩ := h
        subst h1
        have hperm :=
          List.perm_insertionSort (requestOrder e'.currentFloor) s.floorRequests
        exact le_of_eq (Multiset.coe_eq_coe.mpr hperm.symm)
  | elevatorFloorButtonPressed i f =>
    simp only [step, onElevatorFloorButtonPressed] at h
    split at h
    · exact Option.noConfusion h
    · simp only [Option.some.injEq, Prod.mk.injEq] at h
      obtain ⟨h1, -⟩ := h
      subst h1
      exact le_refl _
  | elevatorPassingFloor i f d =>
    simp only [step, onElevatorPassingFloor, Option.some.injEq, Prod.mk.injEq] at h
    obtain ⟨h1, -⟩ := h
    subst h1
    exact le_refl _
  | elevatorStoppedAtFloor i f =>
    simp only [step, onElevatorStoppedAtFloor, Option.some.injEq, Prod.mk.injEq] at h
    obtain ⟨h1, -⟩ := h
    subst h1
    exact le_refl _

/-- **C8 witness.** A floor-request event at the empty state appends floor
3, and the containment theorem applies to that step. -/
theorem C8_witness :
    step emptyState (Event.floorRequest 3) =
      some ({ emptyState with floorRequests := [3] }, []) ∧
    ((emptyState.floorRequests : Multiset Int) ≤
      (({ emptyState with floorRequests := [3] } : GameState).floorRequests : Multiset Int)) :=
  ⟨rfl, C8_requests_never_shrink emptyState (Event.floorRequest 3)
    { emptyState with floorRequests := [3] } [] rfl⟩

/-- **C9.** If the cached elevator collection is empty, an idle event is a
complete no-op: the handler returns through its length guard before any
indexing, issues no command and leaves the whole controller state
unchanged, for every index. -/
theorem C9_empty_elevators_noop (s : GameState) (index : Nat)
    (h : s.elevators = []) : onElevatorIdle s index = some (s, []) := by
  unfold onElevatorIdle
  rw [if_pos]
  rw [h]
  rfl

/-- No elevators cached, one pending request. -/
def noElevState : GameState :=
  { goingUp := 0, goingDown := 0, elevators := [], floors := [0, 1], floorRequests := [2] }

/-- **C9 witness.** With no cached elevators, an idle event for index 5 (a
would-be out-of-range lookup) returns the state unchanged and no
command. -/
theorem C9_witness :
    noElevState.elevators = [] ∧ onElevatorIdle noElevState 5 = some (noElevState, []) :=
  ⟨rfl, C9_empty_elevators_noop noElevState 5 rfl⟩

/-- **C10.** The only command the controller ever issues on an elevator
capability object is `goToFloor` with a single floor argument (no
`goDirectly` flag): every command produced by any event handler is a
`goToFloor` whose `goDirectly` argument is absent, and the `update`
lifecycle entry point issues no command at all. -/
theorem C10_only_goToFloor (s : GameState) (e : Event) (s' : GameState)
    (cs : List Command) (h : step s e = some (s', cs)) (dt : Int)
    (es : List ElevatorState) (fs : List Int) :
    (∀ c ∈ cs, ∃ i f, c = Command.goToFloor i f none) ∧ (update s dt es fs).2 = [] := by
  refine ⟨?_, rfl⟩
  cases e with
  | floorRequest f =>
    simp only [step, onFloorRequest, Option.some.injEq, Prod.mk.injEq] at h
    obtain ⟨-, h2⟩ := h
    subst h2
    intro c hc
    exact absurd hc (List.not_mem_nil c)
  | elevatorIdle i =>
    simp only [step, onElevatorIdle] at h
    split at h
    · simp only [Option.some.injEq, Prod.mk.injEq] at h
      obtain ⟨-, h2⟩ := h
      subst h2
      intro c hc
      exact absurd hc (List.not_mem_nil c)
    · split at h
      · exact Option.noConfusion h
      · simp only [Option.some.injEq, Prod.mk.injEq] at h
        obtain ⟨-, h2⟩ := h
        subst h2
        intro c hc
        rw [List.mem_singleton] at hc
        subst hc
        exact ⟨i, _, rfl⟩
  | elevatorFloorButtonPressed i f =>
    simp only [step, onElevatorFloorButtonPressed] at h
    split at h
    · exact Option.noConfusion h
    · simp only [Option.some.injEq, Prod.mk.injEq] at h
      obtain ⟨-, h2⟩ := h
      subst h2
      intro c hc
      rw [List.mem_singleton] at hc
      subst hc
      exact ⟨i, some f, rfl⟩
  | elevatorPassingFloor i f d =>
    simp only [step, onElevatorPassingFloor, Option.some.injEq, Prod.mk.injEq] at h
    obtain ⟨-, h2⟩ := h
    subst h2
    intro c hc
    exact absurd hc (List.not_mem_nil c)
  | elevatorStoppedAtFloor i f =>
    simp only [step, onElevatorStoppedAtFloor, Option.some.injEq, Prod.mk.injEq] at h
    obtain ⟨-, h2⟩ := h
    subst h2
    intro c hc
    exact absurd hc (List.not_mem_nil c)

/-- **C10 witness.** An idle event at `exState1` issues exactly one
command, and the theorem applies to it (and to a concrete `update`
call). -/
theorem C10_witness :
    (∀ c ∈ [Command.goToFloor 0 (some 3) none], ∃ i f, c = Command.goToFloor i f none) ∧
    (update exState1 1 [] []).2 = [] :=
  C10_only_goToFloor exState1 (Event.elevatorIdle 0) exState1
    [Command.goToFloor 0 (some 3) none] (by decide) 1 [] []

end ElevatorSaga
